import Mathlib

/-!
# Verification of the pyWsjtxHighlight Activity Index core

Shallow embedding of `pyWsjtxHighlight.py`: the calendar utility
(`leap_year`, `parse_date`), the activity-index lookup (`binary_search`,
`call_index`), the recency evaluator (`highlight_level`) and the live
QSO-logged update (append + sort + persist), together with proofs of the
specified properties.

The database is a list of comma-separated text lines
`CALL,MODE,BAND,YEAR,LEAP,JULIAN`.  We embed each parsed line as a
`DbRec` structure; the serialized form used by Python's `list.sort()`
is recovered by `DbRec.line`.
-/

namespace WsjtxHighlight

/-- Decidability of string comparison routed through the character
lists, so that concrete comparisons evaluate inside the kernel (the
iterator-based instance from the library does not reduce there).  The
order itself is unchanged: lexicographic by code point, as in Python. -/
instance (priority := 2000) decLtStr (s t : String) : Decidable (s < t) :=
  decidable_of_iff (s.toList < t.toList) String.lt_iff_toList_lt.symm

instance (priority := 2000) decLeStr (s t : String) : Decidable (s ≤ t) :=
  decidable_of_iff (¬ t < s) Iff.rfl

/-- One activity-database record: the fields of one line
`CALL,MODE,BAND,YEAR,LEAP,JULIAN` of `logdata.csv`, with the numeric
fields already converted by `int(...)` as `highlight_level` does. -/
structure DbRec where
  callsign : String
  mode : String
  band : String
  year : Int
  leap : Int
  julian : Int
deriving DecidableEq, Repr

/-- The session context: the module-level globals of the script that
`highlight_level` reads (`wsjtx_mode`, `wsjtx_band`, `year_now`,
`julian_now`, `num_days`).  `leap_now` is never read by the core, so it
is not modelled. -/
structure Ctx where
  wsjtx_mode : String
  wsjtx_band : String
  year_now : Int
  julian_now : Int
  num_days : Int
deriving DecidableEq, Repr

/-- The bogus trailing record `ZZZZZZ,NONE,NONE,2001,0,1` written at the
end of the database by `build_database` (line 158 of the source). -/
def sentinel : DbRec := ⟨"ZZZZZZ", "NONE", "NONE", 2001, 0, 1⟩

/-- Database indexing with a Python-style `int` index.  All reachable
reads of the source are in bounds with a nonnegative index (this is
proved for the binary search below), so out-of-range access never
matters; we return `sentinel` as an arbitrary default. -/
def getRec (db : List DbRec) (i : Int) : DbRec :=
  db.getD i.toNat sentinel

/-- `leap_year(year)` from the source: 1 for leap years, else 0.
Python `%` on a positive modulus agrees with `Int.emod`, Lean's `%`. -/
def leap_year (year : Int) : Int :=
  if year % 400 = 0 then 1
  else if year % 100 = 0 then 0
  else if year % 4 = 0 then 1
  else 0

/-- The scanning loop of `highlight_level` (source lines 240-278),
operating on the suffix `db[index:]` of the database and the running
`level` accumulator.  The Python loop reads `db[index]` *before*
testing `call == db_entry[0]`, so running off the end of the list is an
`IndexError`; we model that failing read as `none`.  A normal exit from
the loop (first record whose callsign differs from `call`) returns
`some level`. -/
def highlight_scan (ctx : Ctx) (call : String) : List DbRec → Nat → Option Nat
  | [], _ => none
  | r :: rest, level =>
    if call = r.callsign then
      if r.mode = ctx.wsjtx_mode ∧ r.band = ctx.wsjtx_band then
        if ctx.year_now = r.year then
          if ctx.julian_now - r.julian = 0 then
            some 2
          else if ctx.julian_now - r.julian < ctx.num_days then
            highlight_scan ctx call rest (if level = 0 then 1 else level)
          else
            highlight_scan ctx call rest level
        else if ctx.year_now - r.year = 1 then
          if ctx.julian_now + r.leap + 365 - r.julian < ctx.num_days then
            highlight_scan ctx call rest (if level = 0 then 1 else level)
          else
            highlight_scan ctx call rest level
        else
          highlight_scan ctx call rest level
      else
        highlight_scan ctx call rest level
    else
      some level

/-- `highlight_level(call, index, db)` from the source: scan forward
from `index` with initial level 0.  `none` models the `IndexError`
raised when the scan runs past the end of the list. -/
def highlight_level (ctx : Ctx) (call : String) (index : Nat) (db : List DbRec) : Option Nat :=
  highlight_scan ctx call (db.drop index) 0

/-- The level contributed by one scanned record whose callsign already
matches the query: 2 when mode/band match and the record is from today,
1 when mode/band match and the computed day delta is nonzero and below
`num_days` (same-year or year-rollover branch), else 0.  This mirrors
the branch structure of the loop body of `highlight_level`. -/
def recLevel (ctx : Ctx) (r : DbRec) : Nat :=
  if r.mode = ctx.wsjtx_mode ∧ r.band = ctx.wsjtx_band then
    if ctx.year_now = r.year then
      if ctx.julian_now - r.julian = 0 then 2
      else if ctx.julian_now - r.julian < ctx.num_days then 1
      else 0
    else if ctx.year_now - r.year = 1 then
      if ctx.julian_now + r.leap + 365 - r.julian < ctx.num_days then 1
      else 0
    else 0
  else 0

/-- The same-callsign run scanned by `highlight_level` starting at
`index`: the longest prefix of `db[index:]` whose records all carry the
query callsign. -/
def matchRun (call : String) (db : List DbRec) (index : Nat) : List DbRec :=
  (db.drop index).takeWhile (fun r => decide (call = r.callsign))

/-- The `while (low <= high)` loop of `binary_search` (source lines
188-205).  `mid = (high + low) // 2` — Python floor division agrees with
Lean's `Int` division for a positive divisor.  String comparison of
callsigns is lexicographic by code point in both languages. -/
def binary_search_go (call : String) (db : List DbRec) (low high : Int) : Int :=
  if low ≤ high then
    if (getRec db ((high + low) / 2)).callsign < call then
      binary_search_go call db ((high + low) / 2 + 1) high
    else if call < (getRec db ((high + low) / 2)).callsign then
      binary_search_go call db low ((high + low) / 2 - 1)
    else
      (high + low) / 2
  else
    -1
termination_by (high + 1 - low).toNat
decreasing_by
  · omega
  · omega

/-- `binary_search(call, db)`: index of `call` in `db`, or -1. -/
def binary_search (call : String) (db : List DbRec) : Int :=
  binary_search_go call db 0 ((db.length : Int) - 1)

/-- The back-up loop of `call_index` (source lines 219-224): while the
index is positive and the preceding record has the same callsign, step
back one position. -/
def call_index_go (call : String) (db : List DbRec) (index : Int) : Int :=
  if 0 < index then
    if (getRec db (index - 1)).callsign = call then
      call_index_go call db (index - 1)
    else
      index
  else
    index
termination_by index.toNat
decreasing_by omega

/-- `call_index(call, db)`: binary search followed by the back-up loop,
returning the first occurrence of `call` in `db`, or -1. -/
def call_index (call : String) (db : List DbRec) : Int :=
  call_index_go call db (binary_search call db)

/-- Number of days in a month (1-12) of a year with leap flag `leap`,
as used by `datetime`'s date validation. -/
def month_len (leap : Int) (m : Int) : Int :=
  if m = 1 then 31
  else if m = 2 then 28 + leap
  else if m = 3 then 31
  else if m = 4 then 30
  else if m = 5 then 31
  else if m = 6 then 30
  else if m = 7 then 31
  else if m = 8 then 31
  else if m = 9 then 30
  else if m = 10 then 31
  else if m = 11 then 30
  else 31

/-- Days of the year strictly before month `m` (1-12) in a year with
leap flag `leap`. -/
def days_before (leap : Int) (m : Int) : Int :=
  if m = 1 then 0
  else if m = 2 then 31
  else if m = 3 then 59 + leap
  else if m = 4 then 90 + leap
  else if m = 5 then 120 + leap
  else if m = 6 then 151 + leap
  else if m = 7 then 181 + leap
  else if m = 8 then 212 + leap
  else if m = 9 then 243 + leap
  else if m = 10 then 273 + leap
  else if m = 11 then 304 + leap
  else 334 + leap

/-- Validity of a calendar date as checked by Python's
`datetime(year, month, day)` constructor: year in `MINYEAR..MAXYEAR`
(1..9999), month 1..12, day within the month. -/
def valid_date (year month day : Int) : Prop :=
  1 ≤ year ∧ year ≤ 9999 ∧ 1 ≤ month ∧ month ≤ 12 ∧
    1 ≤ day ∧ day ≤ month_len (leap_year year) month

instance (year month day : Int) : Decidable (valid_date year month day) := by
  unfold valid_date; infer_instance

/-- `parse_date(qso_date)` from the source, for an 8-digit numeric date
stamp `YYYYMMDD` (the stamp is modelled as the number with those
digits: `qso_date[0:4]` is `/ 10000`, `qso_date[4:6]` is `/ 100 % 100`,
`qso_date[6:8]` is `% 100`).  The `datetime` constructor raises
`ValueError` on an invalid calendar date, modelled as `none`;
`int(df.strftime('%j'))` is the 1-based day-of-year, modelled as
`days_before + day`. -/
def parse_date (qso_date : Nat) : Option (Int × Int × Int) :=
  if valid_date ((qso_date / 10000 : Nat) : Int)
      ((qso_date / 100 % 100 : Nat) : Int) ((qso_date % 100 : Nat) : Int) then
    some (((qso_date / 10000 : Nat) : Int),
      leap_year ((qso_date / 10000 : Nat) : Int),
      days_before (leap_year ((qso_date / 10000 : Nat) : Int))
          ((qso_date / 100 % 100 : Nat) : Int) +
        ((qso_date % 100 : Nat) : Int))
  else
    none

/-- The comma-separated line for a record, as written by
`build_database` and the QSO-logged branch:
`'{},{},{},{},{},{}\n'.format(call, mode, band, year, leap, julian)`. -/
def DbRec.line (r : DbRec) : String :=
  r.callsign ++ "," ++ r.mode ++ "," ++ r.band ++ "," ++
    toString r.year ++ "," ++ toString r.leap ++ "," ++ toString r.julian ++ "\n"

/-- Comparison of two database records as `list.sort()` compares their
text lines: lexicographically on the full comma-separated line. -/
def lineLe (a b : DbRec) : Prop :=
  a.line ≤ b.line

instance : DecidableRel lineLe := fun a b => by
  unfold lineLe; infer_instance

instance : IsTotal DbRec lineLe :=
  ⟨fun a b => le_total a.line b.line⟩

instance : IsTrans DbRec lineLe :=
  ⟨fun _ _ _ h h' => le_trans h h'⟩

/-- The QSO-logged live update (source lines 441-445): build the new
record's line from the logged callsign and date plus the current
mode/band, append it to the in-memory list of lines, and sort the whole
list.  Python's `list.sort()` on the text lines is a stable ascending
sort by the line string; a stable ascending sort is uniquely determined
by its input, so it is modelled by the (stable) insertion sort on the
line order. -/
def record_qso (db : List DbRec) (entry : DbRec) : List DbRec :=
  (db ++ [entry]).insertionSort lineLe

/-- Sortedness of the database by callsign (the Activity Index
invariant: lines sorted ascending by the `CALL` field). -/
def sortedByCall (db : List DbRec) : Prop :=
  db.Pairwise (fun a b => a.callsign ≤ b.callsign)

instance (db : List DbRec) : Decidable (sortedByCall db) := by
  unfold sortedByCall; infer_instance

/-- A callsign whose characters all sort after the comma (true of the
uppercase letters and digits of real callsigns).  For such callsigns
the comparison of two whole lines agrees with the comparison of the
callsign fields. -/
def goodCall (s : String) : Prop :=
  ∀ c ∈ s.data, (',' : Char) < c

instance (s : String) : Decidable (goodCall s) := by
  unfold goodCall; infer_instance

/-! ### Basic facts about the per-record candidate level -/

theorem recLevel_le_two (ctx : Ctx) (r : DbRec) : recLevel ctx r ≤ 2 := by
  unfold recLevel; split_ifs <;> omega

theorem recLevel_eq_two_iff (ctx : Ctx) (r : DbRec) :
    recLevel ctx r = 2 ↔
      (r.mode = ctx.wsjtx_mode ∧ r.band = ctx.wsjtx_band) ∧
        ctx.year_now = r.year ∧ ctx.julian_now - r.julian = 0 := by
  unfold recLevel; split_ifs <;> simp_all

/-! ### One step of the scanning loop, expressed through `recLevel` -/

/-- A record whose callsign differs from the query ends the loop. -/
theorem highlight_scan_stop (ctx : Ctx) (call : String) (r : DbRec)
    (rest : List DbRec) (level : Nat) (hc : call ≠ r.callsign) :
    highlight_scan ctx call (r :: rest) level = some level := by
  unfold highlight_scan; rw [if_neg hc]

/-- A matching record from today returns level 2 immediately (the
`break`). -/
theorem highlight_scan_break (ctx : Ctx) (call : String) (r : DbRec)
    (rest : List DbRec) (level : Nat) (hc : call = r.callsign)
    (h2 : recLevel ctx r = 2) :
    highlight_scan ctx call (r :: rest) level = some 2 := by
  obtain ⟨⟨hm, hb⟩, hy, hj⟩ := (recLevel_eq_two_iff ctx r).mp h2
  unfold highlight_scan
  rw [if_pos hc, if_pos ⟨hm, hb⟩, if_pos hy, if_pos hj]

theorem level_update_eq_max (level : Nat) :
    (if level = 0 then 1 else level) = max level 1 := by
  split <;> omega

/-- Any other record advances the loop, raising the running level to
the record's candidate level if it is higher. -/
theorem highlight_scan_step (ctx : Ctx) (call : String) (r : DbRec)
    (rest : List DbRec) (level : Nat) (hc : call = r.callsign)
    (h2 : recLevel ctx r ≠ 2) :
    highlight_scan ctx call (r :: rest) level =
      highlight_scan ctx call rest (max level (recLevel ctx r)) := by
  by_cases hmb : r.mode = ctx.wsjtx_mode ∧ r.band = ctx.wsjtx_band
  · by_cases hy : ctx.year_now = r.year
    · by_cases hj0 : ctx.julian_now - r.julian = 0
      · exact absurd ((recLevel_eq_two_iff ctx r).mpr ⟨hmb, hy, hj0⟩) h2
      · by_cases hjn : ctx.julian_now - r.julian < ctx.num_days
        · have hr : recLevel ctx r = 1 := by
            unfold recLevel; rw [if_pos hmb, if_pos hy, if_neg hj0, if_pos hjn]
          rw [hr]
          simp only [highlight_scan]
          rw [if_pos hc, if_pos hmb, if_pos hy, if_neg hj0, if_pos hjn,
            level_update_eq_max]
        · have hr : recLevel ctx r = 0 := by
            unfold recLevel; rw [if_pos hmb, if_pos hy, if_neg hj0, if_neg hjn]
          rw [hr, Nat.max_zero]
          simp only [highlight_scan]
          rw [if_pos hc, if_pos hmb, if_pos hy, if_neg hj0, if_neg hjn]
    · by_cases hy1 : ctx.year_now - r.year = 1
      · by_cases hjn : ctx.julian_now + r.leap + 365 - r.julian < ctx.num_days
        · have hr : recLevel ctx r = 1 := by
            unfold recLevel; rw [if_pos hmb, if_neg hy, if_pos hy1, if_pos hjn]
          rw [hr]
          simp only [highlight_scan]
          rw [if_pos hc, if_pos hmb, if_neg hy, if_pos hy1, if_pos hjn,
            level_update_eq_max]
        · have hr : recLevel ctx r = 0 := by
            unfold recLevel; rw [if_pos hmb, if_neg hy, if_pos hy1, if_neg hjn]
          rw [hr, Nat.max_zero]
          simp only [highlight_scan]
          rw [if_pos hc, if_pos hmb, if_neg hy, if_pos hy1, if_neg hjn]
      · have hr : recLevel ctx r = 0 := by
          unfold recLevel; rw [if_pos hmb, if_neg hy, if_neg hy1]
        rw [hr, Nat.max_zero]
        simp only [highlight_scan]
        rw [if_pos hc, if_pos hmb, if_neg hy, if_neg hy1]
  · have hr : recLevel ctx r = 0 := by unfold recLevel; rw [if_neg hmb]
    rw [hr, Nat.max_zero]
    simp only [highlight_scan]
    rw [if_pos hc, if_neg hmb]

/-! ### Folding `max` over a list -/

theorem foldl_max_le {α : Type} (f : α → Nat) {c : Nat} :
    ∀ (l : List α) (a : Nat), a ≤ c → (∀ x ∈ l, f x ≤ c) →
      l.foldl (fun b x => max b (f x)) a ≤ c
  | [], _, ha, _ => ha
  | x :: l, a, ha, hl => by
    simp only [List.foldl_cons]
    exact foldl_max_le f l _ (by have := hl x (by simp); omega)
      (fun y hy => hl y (by simp [hy]))

theorem le_foldl_max {α : Type} (f : α → Nat) :
    ∀ (l : List α) (a : Nat), a ≤ l.foldl (fun b x => max b (f x)) a
  | [], _ => le_refl _
  | x :: l, a => by
    simp only [List.foldl_cons]
    have := le_foldl_max f l (max a (f x))
    omega

theorem mem_le_foldl_max {α : Type} (f : α → Nat) :
    ∀ (l : List α) (a : Nat) (x : α), x ∈ l →
      f x ≤ l.foldl (fun b y => max b (f y)) a
  | x :: l, a, y, hy => by
    simp only [List.foldl_cons]
    rcases List.mem_cons.mp hy with rfl | hy'
    · have := le_foldl_max f l (max a (f y)); omega
    · exact mem_le_foldl_max f l _ y hy'

theorem foldl_max_attained {α : Type} (f : α → Nat) :
    ∀ (l : List α) (a : Nat),
      l.foldl (fun b x => max b (f x)) a = a ∨
        ∃ x ∈ l, l.foldl (fun b x => max b (f x)) a = f x
  | [], a => Or.inl rfl
  | x :: l, a => by
    simp only [List.foldl_cons]
    rcases foldl_max_attained f l (max a (f x)) with h | ⟨y, hy, h⟩
    · rcases Nat.le_total a (f x) with hle | hle
      · right
        exact ⟨x, by simp, by rw [h]; omega⟩
      · left
        rw [h]; omega
    · exact Or.inr ⟨y, by simp [hy], h⟩

/-! ### The scanning loop computes the running maximum of `recLevel` -/

/-- Provided some record of the suffix has a different callsign (so the
loop exits before running off the end), the scan returns the maximum of
the starting level and the candidate levels of the same-callsign run. -/
theorem highlight_scan_eq_foldl (ctx : Ctx) (call : String) :
    ∀ (l : List DbRec) (level : Nat), level ≤ 2 →
      (∃ r ∈ l, call ≠ r.callsign) →
      highlight_scan ctx call l level =
        some ((l.takeWhile (fun r => decide (call = r.callsign))).foldl
          (fun a r => max a (recLevel ctx r)) level)
  | [], _, _, h => by simp at h
  | r :: rest, level, hlev, h => by
    by_cases hc : call = r.callsign
    · have htw : (r :: rest).takeWhile (fun r => decide (call = r.callsign)) =
          r :: rest.takeWhile (fun r => decide (call = r.callsign)) := by
        simp [List.takeWhile_cons, hc]
      rw [htw]
      by_cases h2 : recLevel ctx r = 2
      · rw [highlight_scan_break ctx call r rest level hc h2,
          List.foldl_cons, h2]
        have hmax : max level 2 = 2 := by omega
        rw [hmax]
        have h1 : (rest.takeWhile (fun r => decide (call = r.callsign))).foldl
            (fun a r => max a (recLevel ctx r)) 2 ≤ 2 :=
          foldl_max_le _ _ 2 (le_refl 2) (fun x _ => recLevel_le_two ctx x)
        have h2' := le_foldl_max (recLevel ctx)
          (rest.takeWhile (fun r => decide (call = r.callsign))) 2
        rw [Nat.le_antisymm h1 h2']
      · rw [highlight_scan_step ctx call r rest level hc h2, List.foldl_cons]
        have hwit : ∃ r' ∈ rest, call ≠ r'.callsign := by
          rcases h with ⟨r', hr', hne⟩
          rcases List.mem_cons.mp hr' with rfl | hmem
          · exact absurd hc hne
          · exact ⟨r', hmem, hne⟩
        exact highlight_scan_eq_foldl ctx call rest (max level (recLevel ctx r))
          (by have := recLevel_le_two ctx r; omega) hwit
    · have htw : (r :: rest).takeWhile (fun r => decide (call = r.callsign)) =
          [] := by
        simp [List.takeWhile_cons, hc]
      rw [highlight_scan_stop ctx call r rest level hc, htw]
      rfl

/-! ### Unfolding equations for the binary-search loop -/

theorem binary_search_go_of_lt (call : String) (db : List DbRec)
    (low high : Int) (hlh : low ≤ high)
    (h : (getRec db ((high + low) / 2)).callsign < call) :
    binary_search_go call db low high =
      binary_search_go call db ((high + low) / 2 + 1) high := by
  rw [binary_search_go.eq_def]
  rw [if_pos hlh, if_pos h]

theorem binary_search_go_of_gt (call : String) (db : List DbRec)
    (low high : Int) (hlh : low ≤ high)
    (h1 : ¬ (getRec db ((high + low) / 2)).callsign < call)
    (h2 : call < (getRec db ((high + low) / 2)).callsign) :
    binary_search_go call db low high =
      binary_search_go call db low ((high + low) / 2 - 1) := by
  rw [binary_search_go.eq_def]
  rw [if_pos hlh, if_neg h1, if_pos h2]

theorem binary_search_go_of_eq (call : String) (db : List DbRec)
    (low high : Int) (hlh : low ≤ high)
    (h1 : ¬ (getRec db ((high + low) / 2)).callsign < call)
    (h2 : ¬ call < (getRec db ((high + low) / 2)).callsign) :
    binary_search_go call db low high = (high + low) / 2 := by
  rw [binary_search_go.eq_def]
  rw [if_pos hlh, if_neg h1, if_neg h2]

theorem binary_search_go_of_empty (call : String) (db : List DbRec)
    (low high : Int) (hlh : ¬ low ≤ high) :
    binary_search_go call db low high = -1 := by
  rw [binary_search_go.eq_def]
  rw [if_neg hlh]

/-- The running level never decreases: the final level is at least any
intermediate accumulator value. -/
theorem highlight_scan_mono (ctx : Ctx) (call : String) :
    ∀ (l : List DbRec) (level : Nat), level ≤ 2 → ∀ v,
      highlight_scan ctx call l level = some v → level ≤ v
  | [], _, _, v, h => by simp [highlight_scan] at h
  | r :: rest, level, hlev, v, h => by
    by_cases hc : call = r.callsign
    · by_cases h2 : recLevel ctx r = 2
      · rw [highlight_scan_break ctx call r rest level hc h2] at h
        cases h
        omega
      · rw [highlight_scan_step ctx call r rest level hc h2] at h
        have := highlight_scan_mono ctx call rest (max level (recLevel ctx r))
          (by have := recLevel_le_two ctx r; omega) v h
        omega
    · rw [highlight_scan_stop ctx call r rest level hc] at h
      cases h
      exact le_refl _

end WsjtxHighlight

namespace WsjtxHighlight

/-! ### Correctness of the binary search -/

theorem sorted_callsign_le (db : List DbRec) (hs : sortedByCall db)
    {i j : Int} (h0 : 0 ≤ i) (hij : i ≤ j) (hj : j < (db.length : Int)) :
    (getRec db i).callsign ≤ (getRec db j).callsign := by
  have hj' : j.toNat < db.length := by omega
  rcases Nat.lt_or_ge i.toNat j.toNat with h | h
  · have hp := List.pairwise_iff_getElem.mp hs i.toNat j.toNat (by omega) hj' h
    simp only [getRec]
    rw [List.getD_eq_getElem db sentinel (by omega : i.toNat < db.length),
      List.getD_eq_getElem db sentinel hj']
    exact hp
  · have heq : i.toNat = j.toNat := by omega
    simp only [getRec, heq]
    exact le_refl _

/-- Soundness: a nonnegative result of the search loop is an index
between `low` and `high` holding the query callsign. -/
theorem binary_search_go_sound (call : String) (db : List DbRec)
    (low high : Int) :
    binary_search_go call db low high = -1 ∨
      (low ≤ binary_search_go call db low high ∧
        binary_search_go call db low high ≤ high ∧
        (getRec db (binary_search_go call db low high)).callsign = call) := by
  induction low, high using binary_search_go.induct call db with
  | case1 low high hlh hlt ih =>
    rw [binary_search_go_of_lt call db low high hlh hlt]
    rcases ih with h | ⟨h1, h2, h3⟩
    · exact Or.inl h
    · refine Or.inr ⟨?_, h2, h3⟩
      omega
  | case2 low high hlh hnlt hgt ih =>
    rw [binary_search_go_of_gt call db low high hlh hnlt hgt]
    rcases ih with h | ⟨h1, h2, h3⟩
    · exact Or.inl h
    · refine Or.inr ⟨h1, ?_, h3⟩
      omega
  | case3 low high hlh hnlt hngt =>
    rw [binary_search_go_of_eq call db low high hlh hnlt hngt]
    refine Or.inr ⟨by omega, by omega, ?_⟩
    exact le_antisymm (not_lt.mp hngt) (not_lt.mp hnlt)
  | case4 low high hlh =>
    exact Or.inl (binary_search_go_of_empty call db low high hlh)

/-- Completeness: on a sorted database, if every index outside
`[low, high]` is known not to hold the query callsign and the loop
still answers -1, then no index holds the query callsign. -/
theorem binary_search_go_complete (call : String) (db : List DbRec)
    (hs : sortedByCall db) (low high : Int) :
    0 ≤ low → high < (db.length : Int) →
      (∀ k : Int, 0 ≤ k → k < (db.length : Int) → (k < low ∨ high < k) →
        (getRec db k).callsign ≠ call) →
      binary_search_go call db low high = -1 →
      ∀ k : Int, 0 ≤ k → k < (db.length : Int) →
        (getRec db k).callsign ≠ call := by
  induction low, high using binary_search_go.induct call db with
  | case1 low high hlh hlt ih =>
    intro h0 hh hout hm1
    rw [binary_search_go_of_lt call db low high hlh hlt] at hm1
    refine ih (by omega) hh ?_ hm1
    intro k hk0 hklen hkout
    rcases hkout with hk | hk
    · rcases Int.lt_or_le k low with hkl | hkl
      · exact hout k hk0 hklen (Or.inl hkl)
      · -- low ≤ k ≤ (high+low)/2 : by sortedness the callsign at k
        -- is at most the one at mid, which is < call
        have hmono := sorted_callsign_le db hs hk0
          (by omega : k ≤ (high + low) / 2) (by omega)
        intro hcall
        rw [hcall] at hmono
        exact absurd (lt_of_le_of_lt hmono hlt) (lt_irrefl call)
    · exact hout k hk0 hklen (Or.inr hk)
  | case2 low high hlh hnlt hgt ih =>
    intro h0 hh hout hm1
    rw [binary_search_go_of_gt call db low high hlh hnlt hgt] at hm1
    refine ih h0 (by omega) ?_ hm1
    intro k hk0 hklen hkout
    rcases hkout with hk | hk
    · exact hout k hk0 hklen (Or.inl hk)
    · rcases Int.lt_or_le high k with hkh | hkh
      · exact hout k hk0 hklen (Or.inr hkh)
      · -- (high+low)/2 ≤ k ≤ high : the callsign at k is at least the
        -- one at mid, which is > call
        have hmono := sorted_callsign_le db hs
          (by omega : (0:Int) ≤ (high + low) / 2)
          (by omega : (high + low) / 2 ≤ k) (by omega)
        intro hcall
        rw [hcall] at hmono
        exact absurd (lt_of_lt_of_le hgt hmono) (lt_irrefl call)
  | case3 low high hlh hnlt hngt =>
    intro h0 hh hout hm1
    rw [binary_search_go_of_eq call db low high hlh hnlt hngt] at hm1
    omega
  | case4 low high hlh =>
    intro h0 hh hout hm1
    intro k hk0 hklen
    exact hout k hk0 hklen (by omega)

end WsjtxHighlight

namespace WsjtxHighlight

theorem binary_search_sound (call : String) (db : List DbRec) :
    binary_search call db = -1 ∨
      (0 ≤ binary_search call db ∧
        binary_search call db < (db.length : Int) ∧
        (getRec db (binary_search call db)).callsign = call) := by
  unfold binary_search
  rcases binary_search_go_sound call db 0 ((db.length : Int) - 1) with h | ⟨h1, h2, h3⟩
  · exact Or.inl h
  · exact Or.inr ⟨h1, by omega, h3⟩

theorem binary_search_complete (call : String) (db : List DbRec)
    (hs : sortedByCall db)
    (hmem : ∃ k : Int, 0 ≤ k ∧ k < (db.length : Int) ∧
      (getRec db k).callsign = call) :
    binary_search call db ≠ -1 := by
  intro hm1
  unfold binary_search at hm1
  rcases hmem with ⟨k, hk0, hklen, hkcall⟩
  exact binary_search_go_complete call db hs 0 ((db.length : Int) - 1)
    (le_refl 0) (by omega)
    (fun k' hk0' hklen' hout => absurd hout (by omega))
    hm1 k hk0 hklen hkcall

/-! ### Correctness of the back-up loop of `call_index` -/

theorem call_index_go_of_step (call : String) (db : List DbRec) (index : Int)
    (h0 : 0 < index) (hprev : (getRec db (index - 1)).callsign = call) :
    call_index_go call db index = call_index_go call db (index - 1) := by
  rw [call_index_go.eq_def]
  rw [if_pos h0, if_pos hprev]

theorem call_index_go_of_stop (call : String) (db : List DbRec) (index : Int)
    (h0 : 0 < index) (hprev : (getRec db (index - 1)).callsign ≠ call) :
    call_index_go call db index = index := by
  rw [call_index_go.eq_def]
  rw [if_pos h0, if_neg hprev]

theorem call_index_go_of_done (call : String) (db : List DbRec) (index : Int)
    (h0 : ¬ 0 < index) : call_index_go call db index = index := by
  rw [call_index_go.eq_def]
  rw [if_neg h0]

theorem call_index_go_spec (call : String) (db : List DbRec) (index : Int) :
    0 ≤ index → (getRec db index).callsign = call →
      0 ≤ call_index_go call db index ∧
        call_index_go call db index ≤ index ∧
        (getRec db (call_index_go call db index)).callsign = call ∧
        (call_index_go call db index = 0 ∨
          (getRec db (call_index_go call db index - 1)).callsign ≠ call) := by
  induction index using call_index_go.induct call db with
  | case1 index hpos hprev ih =>
    intro h0 hcall
    rw [call_index_go_of_step call db index hpos hprev]
    obtain ⟨ih1, ih2, ih3, ih4⟩ := ih (by omega) hprev
    exact ⟨ih1, by omega, ih3, ih4⟩
  | case2 index hpos hprev =>
    intro h0 hcall
    rw [call_index_go_of_stop call db index hpos hprev]
    exact ⟨h0, le_refl _, hcall, Or.inr hprev⟩
  | case3 index hpos =>
    intro h0 hcall
    rw [call_index_go_of_done call db index hpos]
    exact ⟨h0, le_refl _, hcall, Or.inl (by omega)⟩

/-- On a sorted database containing the callsign, `call_index` returns
a valid index holding the callsign such that no smaller index does
(the first occurrence). -/
theorem call_index_found (call : String) (db : List DbRec)
    (hs : sortedByCall db)
    (hmem : ∃ k : Int, 0 ≤ k ∧ k < (db.length : Int) ∧
      (getRec db k).callsign = call) :
    0 ≤ call_index call db ∧ call_index call db < (db.length : Int) ∧
      (getRec db (call_index call db)).callsign = call ∧
      ∀ j : Int, 0 ≤ j → j < call_index call db →
        (getRec db j).callsign ≠ call := by
  rcases binary_search_sound call db with hm1 | ⟨hm0, hmlen, hmcall⟩
  · exact absurd hm1 (binary_search_complete call db hs hmem)
  · unfold call_index
    obtain ⟨hi0, hile, hicall, hifirst⟩ :=
      call_index_go_spec call db (binary_search call db) hm0 hmcall
    refine ⟨hi0, by omega, hicall, ?_⟩
    intro j hj0 hji hjcall
    rcases hifirst with hz | hprev
    · omega
    · -- j < i, so j ≤ i - 1; by sortedness call ≤ callsign at i-1 ≤ call
      have hlo := sorted_callsign_le db hs hj0
        (by omega : j ≤ call_index_go call db (binary_search call db) - 1)
        (by omega)
      have hhi := sorted_callsign_le db hs
        (by omega : (0:Int) ≤ call_index_go call db (binary_search call db) - 1)
        (by omega : call_index_go call db (binary_search call db) - 1 ≤
          call_index_go call db (binary_search call db))
        (by omega)
      rw [hjcall] at hlo
      rw [hicall] at hhi
      exact hprev (le_antisymm hhi hlo)

/-- When no record holds the callsign, `call_index` returns -1. -/
theorem call_index_not_found (call : String) (db : List DbRec)
    (habs : ∀ k : Int, 0 ≤ k → k < (db.length : Int) →
      (getRec db k).callsign ≠ call) :
    call_index call db = -1 := by
  rcases binary_search_sound call db with hm1 | ⟨hm0, hmlen, hmcall⟩
  · unfold call_index
    rw [hm1]
    exact call_index_go_of_done call db (-1) (by omega)
  · exact absurd hmcall (habs _ hm0 hmlen)

end WsjtxHighlight

namespace WsjtxHighlight

theorem getRec_natCast (db : List DbRec) (n : Nat) (h : n < db.length) :
    getRec db (n : Int) = db[n] := by
  unfold getRec
  have ht : ((n : Int)).toNat = n := by omega
  rw [ht]
  exact List.getD_eq_getElem db sentinel h

/-- C2: on a database sorted ascending by callsign and ending with the
sentinel, `call_index` returns the smallest index whose record carries
the query callsign when one exists, and the not-found indicator -1
(which is not a valid index) otherwise. -/
theorem call_index_first_occurrence (call : String) (db : List DbRec)
    (hs : sortedByCall db) (_hsent : db.getLast? = some sentinel) :
    ((∃ r ∈ db, r.callsign = call) →
      ∃ i : Nat, call_index call db = (i : Int) ∧
        ∃ h : i < db.length, db[i].callsign = call ∧
          ∀ j : Nat, j < i → ∀ h' : j < db.length, db[j].callsign ≠ call) ∧
    ((∀ r ∈ db, r.callsign ≠ call) → call_index call db = -1) := by
  constructor
  · intro hmem
    have hmem' : ∃ k : Int, 0 ≤ k ∧ k < (db.length : Int) ∧
        (getRec db k).callsign = call := by
      rcases hmem with ⟨r, hr, hrc⟩
      rcases List.mem_iff_getElem.mp hr with ⟨n, hn, hrn⟩
      refine ⟨(n : Int), by omega, by omega, ?_⟩
      rw [getRec_natCast db n hn, hrn, hrc]
    obtain ⟨h0, hlen, hcall, hfirst⟩ := call_index_found call db hs hmem'
    refine ⟨(call_index call db).toNat, by omega, by omega, ?_, ?_⟩
    · rw [← getRec_natCast db (call_index call db).toNat (by omega)]
      rw [show (((call_index call db).toNat : Nat) : Int) = call_index call db
        from by omega]
      exact hcall
    · intro j hj h' hjcall
      refine hfirst (j : Int) (by omega) (by omega) ?_
      rw [getRec_natCast db j h']
      exact hjcall
  · intro habs
    refine call_index_not_found call db ?_
    intro k hk0 hklen
    have hk' : k.toNat < db.length := by omega
    have := getRec_natCast db k.toNat hk'
    rw [show ((k.toNat : Nat) : Int) = k by omega] at this
    rw [this]
    exact habs _ (List.getElem_mem hk')

/-- Witness for C2 at a concrete database: `K1JT` is located at its
first occurrence (index 1) and an absent callsign yields -1. -/
theorem call_index_first_occurrence_witness :
    (∃ i : Nat,
        call_index "K1JT"
          [⟨"AA1A", "FT8", "20M", 2023, 0, 1⟩,
           ⟨"K1JT", "FT8", "20M", 2023, 0, 2⟩,
           ⟨"K1JT", "CW", "40M", 2023, 0, 3⟩, sentinel] = (i : Int) ∧
        ∃ h : i < 4,
          [⟨"AA1A", "FT8", "20M", 2023, 0, 1⟩,
           ⟨"K1JT", "FT8", "20M", 2023, 0, 2⟩,
           ⟨"K1JT", "CW", "40M", 2023, 0, 3⟩, sentinel][i].callsign = "K1JT" ∧
          ∀ j : Nat, j < i → ∀ h' : j < 4,
            [⟨"AA1A", "FT8", "20M", 2023, 0, 1⟩,
             ⟨"K1JT", "FT8", "20M", 2023, 0, 2⟩,
             ⟨"K1JT", "CW", "40M", 2023, 0, 3⟩, sentinel][j].callsign ≠ "K1JT") ∧
      call_index "W9XYZ"
        [⟨"AA1A", "FT8", "20M", 2023, 0, 1⟩,
         ⟨"K1JT", "FT8", "20M", 2023, 0, 2⟩,
         ⟨"K1JT", "CW", "40M", 2023, 0, 3⟩, sentinel] = -1 := by
  constructor
  · exact (call_index_first_occurrence "K1JT" _ (by decide) (by decide)).1
      ⟨⟨"K1JT", "FT8", "20M", 2023, 0, 2⟩, by simp, rfl⟩
  · exact (call_index_first_occurrence "W9XYZ" _ (by decide) (by decide)).2
      (by decide)

end WsjtxHighlight

namespace WsjtxHighlight

/-- A located (nonnegative) `call_index` result is a valid index whose
record carries the query callsign. -/
theorem located_index_facts (call : String) (db : List DbRec) (i : Nat)
    (hloc : call_index call db = (i : Int)) :
    i < db.length ∧ (getRec db (i : Int)).callsign = call := by
  rcases binary_search_sound call db with hm1 | ⟨hm0, hmlen, hmcall⟩
  · unfold call_index at hloc
    rw [hm1, call_index_go_of_done call db (-1) (by omega)] at hloc
    omega
  · unfold call_index at hloc
    obtain ⟨hi0, hile, hicall, _⟩ :=
      call_index_go_spec call db (binary_search call db) hm0 hmcall
    rw [hloc] at hile hicall
    exact ⟨by omega, hicall⟩

/-- The sentinel, being the last record, lies in every suffix starting
at a valid index. -/
theorem sentinel_mem_drop (db : List DbRec) (i : Nat)
    (hsent : db.getLast? = some sentinel) (hi : i < db.length) :
    sentinel ∈ db.drop i := by
  have h1 : (db.drop i).getLast? = some sentinel := by
    rw [List.getLast?_drop, if_neg (by omega)]
    exact hsent
  obtain ⟨hne, hx⟩ := List.mem_getLast?_eq_getLast
    (show sentinel ∈ (db.drop i).getLast? from h1)
  rw [hx]
  exact List.getLast_mem hne

/-- Evaluation helper: on a sorted database where exactly one index
holds the query callsign, `call_index` returns that index.  (The
search loops are defined by well-founded recursion, so concrete values
are obtained through the correctness lemmas rather than by kernel
evaluation.) -/
theorem call_index_eval (call : String) (db : List DbRec)
    (hs : sortedByCall db) (i : Nat) (hi : i < db.length)
    (hcall : (getRec db (i : Int)).callsign = call)
    (huniq : ∀ j : Nat, j < db.length → (getRec db (j : Int)).callsign = call → j = i) :
    call_index call db = (i : Int) := by
  obtain ⟨h0, hlen, hc, _⟩ :=
    call_index_found call db hs ⟨(i : Int), by omega, by omega, hcall⟩
  have hcast : ((((call_index call db).toNat) : Nat) : Int) = call_index call db := by
    omega
  have hj := huniq (call_index call db).toNat (by omega) (by rw [hcast]; exact hc)
  omega

/-- C1 (amended with `call ≠ "ZZZZZZ"`): for a sorted-with-sentinel
database and a query callsign other than the sentinel callsign located
at its first occurrence, the returned level is exactly the maximum
candidate level over the same-callsign run (it bounds every record's
candidate level and is attained by one of them unless zero), and the
running level never decreases during the scan. -/
theorem highlight_level_eq_max_run (ctx : Ctx) (call : String)
    (db : List DbRec) (i : Nat)
    (_hs : sortedByCall db) (hsent : db.getLast? = some sentinel)
    (hcall : call ≠ "ZZZZZZ")
    (hloc : call_index call db = (i : Int)) :
    highlight_level ctx call i db =
        some ((matchRun call db i).foldl (fun a r => max a (recLevel ctx r)) 0) ∧
      (∀ r ∈ matchRun call db i, recLevel ctx r ≤
        (matchRun call db i).foldl (fun a r => max a (recLevel ctx r)) 0) ∧
      ((matchRun call db i).foldl (fun a r => max a (recLevel ctx r)) 0 = 0 ∨
        ∃ r ∈ matchRun call db i,
          (matchRun call db i).foldl (fun a r => max a (recLevel ctx r)) 0 =
            recLevel ctx r) ∧
      (∀ level ≤ 2, ∀ v, highlight_scan ctx call (db.drop i) level = some v →
        level ≤ v) := by
  obtain ⟨hilen, hicall⟩ := located_index_facts call db i hloc
  have hsen : sentinel ∈ db.drop i := sentinel_mem_drop db i hsent hilen
  have hwit : ∃ r ∈ db.drop i, call ≠ r.callsign :=
    ⟨sentinel, hsen, hcall⟩
  refine ⟨highlight_scan_eq_foldl ctx call (db.drop i) 0 (by omega) hwit,
    fun r hr => mem_le_foldl_max (recLevel ctx) _ 0 r hr,
    foldl_max_attained (recLevel ctx) _ 0,
    fun level hlev v h => highlight_scan_mono ctx call (db.drop i) level hlev v h⟩

/-- Witness for the amended C1 at a concrete input. -/
theorem highlight_level_eq_max_run_witness :
    highlight_level ⟨"FT8", "20M", 2023, 100, 7⟩ "W1AW" 0
        [⟨"W1AW", "FT8", "20M", 2023, 0, 100⟩, sentinel] =
      some ((matchRun "W1AW" [⟨"W1AW", "FT8", "20M", 2023, 0, 100⟩, sentinel] 0).foldl
        (fun a r => max a (recLevel ⟨"FT8", "20M", 2023, 100, 7⟩ r)) 0) :=
  (highlight_level_eq_max_run ⟨"FT8", "20M", 2023, 100, 7⟩ "W1AW"
    [⟨"W1AW", "FT8", "20M", 2023, 0, 100⟩, sentinel] 0
    (by decide) (by decide) (by decide)
    (call_index_eval "W1AW" [⟨"W1AW", "FT8", "20M", 2023, 0, 100⟩, sentinel]
      (by decide) 0 (by decide) (by decide) (by decide))).1

/-- C1 counterexample: the claim as stated (without excluding the
sentinel callsign as query) fails.  The query "ZZZZZZ" is located at
its first occurrence (index 0) in the sorted-with-sentinel database
`[sentinel]`, yet the classification returns no level at all (`none`
models the `IndexError` of the scan running past the end), so in
particular it does not return the run maximum, which is 0. -/
theorem highlight_level_sentinel_query_no_result :
    sortedByCall [sentinel] ∧
      [sentinel].getLast? = some sentinel ∧
      call_index "ZZZZZZ" [sentinel] = ((0 : Nat) : Int) ∧
      highlight_level ⟨"FT8", "20M", 2023, 100, 7⟩ "ZZZZZZ" 0 [sentinel] = none ∧
      (matchRun "ZZZZZZ" [sentinel] 0).foldl
        (fun a r => max a (recLevel ⟨"FT8", "20M", 2023, 100, 7⟩ r)) 0 = 0 := by
  refine ⟨by decide, by decide, ?_, by decide, by decide⟩
  exact call_index_eval "ZZZZZZ" [sentinel] (by decide) 0 (by decide) (by decide)
    (by decide)

/-- C6: for a query callsign sorting strictly before the sentinel
callsign and located at a valid first occurrence, the forward scan
stays within the bounds of the list: it returns a level (`some`) and
never performs the out-of-bounds read modelled by `none`. -/
theorem highlight_scan_in_bounds (ctx : Ctx) (call : String)
    (db : List DbRec) (i : Nat)
    (hsent : db.getLast? = some sentinel)
    (hcall : call < "ZZZZZZ")
    (hloc : call_index call db = (i : Int)) :
    ∃ v, highlight_level ctx call i db = some v := by
  obtain ⟨hilen, hicall⟩ := located_index_facts call db i hloc
  have hsen : sentinel ∈ db.drop i := sentinel_mem_drop db i hsent hilen
  have hwit : ∃ r ∈ db.drop i, call ≠ r.callsign := by
    refine ⟨sentinel, hsen, fun h => ?_⟩
    rw [h] at hcall
    exact absurd hcall (by decide)
  exact ⟨_, highlight_scan_eq_foldl ctx call (db.drop i) 0 (by omega) hwit⟩

/-- Witness for C6 at a concrete input. -/
theorem highlight_scan_in_bounds_witness :
    ∃ v, highlight_level ⟨"FT8", "20M", 2023, 100, 7⟩ "W1AW" 0
      [⟨"W1AW", "FT8", "20M", 2023, 0, 100⟩, sentinel] = some v :=
  highlight_scan_in_bounds ⟨"FT8", "20M", 2023, 100, 7⟩ "W1AW"
    [⟨"W1AW", "FT8", "20M", 2023, 0, 100⟩, sentinel] 0
    (by decide) (by decide)
    (call_index_eval "W1AW" [⟨"W1AW", "FT8", "20M", 2023, 0, 100⟩, sentinel]
      (by decide) 0 (by decide) (by decide) (by decide))

end WsjtxHighlight

namespace WsjtxHighlight

/-- Skipping: a record with the query callsign but non-matching mode or
band can be inserted into (or removed from) the scanned suffix at any
point without changing the scan result. -/
theorem highlight_scan_skip_insert (ctx : Ctx) (call : String) (r : DbRec)
    (hc : call = r.callsign)
    (hmb : r.mode ≠ ctx.wsjtx_mode ∨ r.band ≠ ctx.wsjtx_band) :
    ∀ (l1 l2 : List DbRec) (level : Nat),
      highlight_scan ctx call (l1 ++ r :: l2) level =
        highlight_scan ctx call (l1 ++ l2) level := by
  have hskip : ∀ (l2 : List DbRec) (level : Nat),
      highlight_scan ctx call (r :: l2) level =
        highlight_scan ctx call l2 level := by
    intro l2 level
    have hmb' : ¬ (r.mode = ctx.wsjtx_mode ∧ r.band = ctx.wsjtx_band) := by
      tauto
    simp only [highlight_scan]
    rw [if_pos hc, if_neg hmb']
  intro l1
  induction l1 with
  | nil =>
    intro l2 level
    simpa using hskip l2 level
  | cons a l1 ih =>
    intro l2 level
    simp only [List.cons_append]
    by_cases hca : call = a.callsign
    · by_cases h2 : recLevel ctx a = 2
      · rw [highlight_scan_break ctx call a _ level hca h2,
          highlight_scan_break ctx call a _ level hca h2]
      · rw [highlight_scan_step ctx call a _ level hca h2,
          highlight_scan_step ctx call a _ level hca h2,
          ih l2 _]
    · rw [highlight_scan_stop ctx call a _ level hca,
        highlight_scan_stop ctx call a _ level hca]

/-- C8: a same-callsign record whose mode differs from the session mode
or whose band differs from the session band never affects the returned
level: inserting it into (or removing it from) the same-callsign run
leaves `highlight_level` unchanged. -/
theorem nonmatching_record_no_effect (ctx : Ctx) (call : String)
    (pre l1 l2 : List DbRec) (r : DbRec)
    (hc : call = r.callsign)
    (hmb : r.mode ≠ ctx.wsjtx_mode ∨ r.band ≠ ctx.wsjtx_band) :
    highlight_level ctx call pre.length (pre ++ (l1 ++ r :: l2)) =
      highlight_level ctx call pre.length (pre ++ (l1 ++ l2)) := by
  unfold highlight_level
  rw [List.drop_left, List.drop_left]
  exact highlight_scan_skip_insert ctx call r hc hmb l1 l2 0

/-- Witness for C8: removing a same-callsign record on another
mode/band does not change the level. -/
theorem nonmatching_record_no_effect_witness :
    highlight_level ⟨"FT8", "20M", 2023, 100, 7⟩ "W1AW" 0
        ([] ++ ([⟨"W1AW", "FT8", "20M", 2023, 0, 97⟩] ++
          ⟨"W1AW", "CW", "40M", 2023, 0, 100⟩ :: [sentinel])) =
      highlight_level ⟨"FT8", "20M", 2023, 100, 7⟩ "W1AW" 0
        ([] ++ ([⟨"W1AW", "FT8", "20M", 2023, 0, 97⟩] ++ [sentinel])) :=
  nonmatching_record_no_effect ⟨"FT8", "20M", 2023, 100, 7⟩ "W1AW"
    [] [⟨"W1AW", "FT8", "20M", 2023, 0, 97⟩] [sentinel]
    ⟨"W1AW", "CW", "40M", 2023, 0, 100⟩ rfl (Or.inl (by decide))

/-- C7 counterexample: the claim fails for the initial session context,
whose mode and band are still empty strings.  A record with empty mode
and band fields then *does* match, and here causes level 2. -/
theorem empty_fields_match_empty_context :
    (⟨"W1AW", "", "", 2023, 0, 100⟩ : DbRec).mode = "" ∧
      (⟨"W1AW", "", "", 2023, 0, 100⟩ : DbRec).band = "" ∧
      highlight_level ⟨"", "", 2023, 100, 7⟩ "W1AW" 0
        [⟨"W1AW", "", "", 2023, 0, 100⟩, sentinel] = some 2 :=
  ⟨rfl, rfl, by decide⟩

/-- C7 (amended: requires a session context whose mode or band is
nonempty, i.e. after the first status event): a record whose mode and
band fields are both empty strings never passes the mode/band filter,
contributes candidate level 0, and never causes a nonzero level —
inserting it into or removing it from the scan leaves the returned
level unchanged. -/
theorem empty_fields_never_match (ctx : Ctx)
    (hctx : ctx.wsjtx_mode ≠ "" ∨ ctx.wsjtx_band ≠ "")
    (r : DbRec) (hm : r.mode = "") (hb : r.band = "") :
    ¬ (r.mode = ctx.wsjtx_mode ∧ r.band = ctx.wsjtx_band) ∧
      recLevel ctx r = 0 ∧
      ∀ (call : String) (pre l1 l2 : List DbRec), call = r.callsign →
        highlight_level ctx call pre.length (pre ++ (l1 ++ r :: l2)) =
          highlight_level ctx call pre.length (pre ++ (l1 ++ l2)) := by
  have hnm : ¬ (r.mode = ctx.wsjtx_mode ∧ r.band = ctx.wsjtx_band) := by
    rcases hctx with h | h
    · exact fun hand => h (hm ▸ hand.1.symm)
    · exact fun hand => h (hb ▸ hand.2.symm)
  refine ⟨hnm, by unfold recLevel; rw [if_neg hnm], ?_⟩
  intro call pre l1 l2 hc
  unfold highlight_level
  rw [List.drop_left, List.drop_left]
  refine highlight_scan_skip_insert ctx call r hc (by tauto) l1 l2 0

/-- Witness for the amended C7. -/
theorem empty_fields_never_match_witness :
    recLevel ⟨"FT8", "20M", 2023, 100, 7⟩ ⟨"W1AW", "", "", 2023, 0, 100⟩ = 0 ∧
      highlight_level ⟨"FT8", "20M", 2023, 100, 7⟩ "W1AW" 0
          ([] ++ ([⟨"W1AW", "FT8", "20M", 2023, 0, 100⟩] ++
            ⟨"W1AW", "", "", 2023, 0, 100⟩ :: [sentinel])) =
        highlight_level ⟨"FT8", "20M", 2023, 100, 7⟩ "W1AW" 0
          ([] ++ ([⟨"W1AW", "FT8", "20M", 2023, 0, 100⟩] ++ [sentinel])) := by
  have h := empty_fields_never_match ⟨"FT8", "20M", 2023, 100, 7⟩
    (Or.inl (by decide)) ⟨"W1AW", "", "", 2023, 0, 100⟩ rfl rfl
  exact ⟨h.2.1, h.2.2 "W1AW" [] [⟨"W1AW", "FT8", "20M", 2023, 0, 100⟩] [sentinel] rfl⟩

end WsjtxHighlight

namespace WsjtxHighlight

/-- C3 counterexample: a same-year record dated one day *after* the
current date (delta = -1) with matching mode and band yields level 1,
although the claim says a record with delta ≤ -1 contributes no level
change (which would leave the level at 0 here). -/
theorem negative_delta_yields_level_one :
    highlight_level ⟨"FT8", "20M", 2023, 100, 7⟩ "W1AW" 0
        [⟨"W1AW", "FT8", "20M", 2023, 0, 101⟩, sentinel] = some 1 ∧
      recLevel ⟨"FT8", "20M", 2023, 100, 7⟩ ⟨"W1AW", "FT8", "20M", 2023, 0, 101⟩ = 1 :=
  ⟨by decide, by decide⟩

/-- C3 (amended): for a matching-mode/band record of the current year
and a threshold of at least 2, the candidate level is 1 exactly when
the delta `julian_now - julian_qso` is nonzero and below the threshold.
In particular delta = threshold gives level 0 and delta = threshold - 1
gives level 1, but — contrary to the original claim — delta ≤ -1 also
gives level 1 rather than no level change. -/
theorem same_year_candidate_level (ctx : Ctx) (r : DbRec)
    (hm : r.mode = ctx.wsjtx_mode) (hb : r.band = ctx.wsjtx_band)
    (hy : ctx.year_now = r.year) (hn : 2 ≤ ctx.num_days) :
    (recLevel ctx r = 1 ↔
      (ctx.julian_now - r.julian ≠ 0 ∧
        ctx.julian_now - r.julian < ctx.num_days)) ∧
    (ctx.julian_now - r.julian = ctx.num_days → recLevel ctx r = 0) ∧
    (ctx.julian_now - r.julian = ctx.num_days - 1 → recLevel ctx r = 1) ∧
    (ctx.julian_now - r.julian ≤ -1 → recLevel ctx r = 1) := by
  unfold recLevel
  rw [if_pos ⟨hm, hb⟩, if_pos hy]
  by_cases hj0 : ctx.julian_now - r.julian = 0
  · rw [if_pos hj0]
    exact ⟨⟨fun h => by omega, fun ⟨h, _⟩ => absurd hj0 h⟩,
      fun h => by omega, fun h => by omega, fun h => by omega⟩
  · rw [if_neg hj0]
    by_cases hjn : ctx.julian_now - r.julian < ctx.num_days
    · rw [if_pos hjn]
      exact ⟨⟨fun _ => ⟨hj0, hjn⟩, fun _ => rfl⟩,
        fun h => by omega, fun _ => rfl, fun _ => rfl⟩
    · rw [if_neg hjn]
      exact ⟨⟨fun h => by omega, fun ⟨_, h2⟩ => absurd h2 hjn⟩,
        fun _ => rfl, fun h => by omega, fun h => by omega⟩

/-- Witness for the amended C3 (delta = threshold - 1 = 6). -/
theorem same_year_candidate_level_witness :
    (recLevel ⟨"FT8", "20M", 2023, 100, 7⟩ ⟨"W1AW", "FT8", "20M", 2023, 0, 94⟩ = 1 ↔
      ((100 : Int) - 94 ≠ 0 ∧ (100 : Int) - 94 < 7)) ∧
    ((100 : Int) - 94 = 7 → recLevel ⟨"FT8", "20M", 2023, 100, 7⟩
      ⟨"W1AW", "FT8", "20M", 2023, 0, 94⟩ = 0) ∧
    ((100 : Int) - 94 = 7 - 1 → recLevel ⟨"FT8", "20M", 2023, 100, 7⟩
      ⟨"W1AW", "FT8", "20M", 2023, 0, 94⟩ = 1) ∧
    ((100 : Int) - 94 ≤ -1 → recLevel ⟨"FT8", "20M", 2023, 100, 7⟩
      ⟨"W1AW", "FT8", "20M", 2023, 0, 94⟩ = 1) :=
  same_year_candidate_level ⟨"FT8", "20M", 2023, 100, 7⟩
    ⟨"W1AW", "FT8", "20M", 2023, 0, 94⟩ rfl rfl rfl (by decide)

/-- C4: in the year-rollover case (current year exactly one greater
than the record year) the delta is
`(julian_now + leap_qso + 365) - julian_qso`, and concretely a record
of year Y, julian day 365, leap flag 0, against current year Y + 1 and
julian day 1, gives delta 1 and hence level 1 whenever the threshold is
at least 2. -/
theorem year_rollover_delta :
    (∀ (ctx : Ctx) (r : DbRec), r.mode = ctx.wsjtx_mode →
      r.band = ctx.wsjtx_band → ctx.year_now - r.year = 1 →
      recLevel ctx r =
        if ctx.julian_now + r.leap + 365 - r.julian < ctx.num_days then 1
        else 0) ∧
    (∀ (call mode band : String) (Y T : Int), 2 ≤ T → call ≠ "ZZZZZZ" →
      highlight_level ⟨mode, band, Y + 1, 1, T⟩ call 0
        [⟨call, mode, band, Y, 0, 365⟩, sentinel] = some 1) := by
  constructor
  · intro ctx r hm hb hy
    unfold recLevel
    rw [if_pos ⟨hm, hb⟩, if_neg (show ¬ ctx.year_now = r.year by omega),
      if_pos hy]
  · intro call mode band Y T hT hcall
    have hrl : recLevel ⟨mode, band, Y + 1, 1, T⟩ ⟨call, mode, band, Y, 0, 365⟩ = 1 := by
      unfold recLevel
      rw [if_pos ⟨rfl, rfl⟩, if_neg (show ¬ (Y + 1 = Y) by omega),
        if_pos (show Y + 1 - Y = 1 by omega),
        if_pos (show (1 : Int) + 0 + 365 - 365 < T by omega)]
    unfold highlight_level
    rw [List.drop_zero]
    rw [highlight_scan_step ⟨mode, band, Y + 1, 1, T⟩ call
      ⟨call, mode, band, Y, 0, 365⟩ [sentinel] 0 rfl (by rw [hrl]; omega)]
    rw [hrl]
    rw [highlight_scan_stop ⟨mode, band, Y + 1, 1, T⟩ call sentinel [] (max 0 1)
      hcall]
    rfl

/-- Witness for C4. -/
theorem year_rollover_delta_witness :
    (recLevel ⟨"FT8", "20M", 2023, 1, 7⟩ ⟨"W1AW", "FT8", "20M", 2022, 0, 365⟩ =
      if (1 : Int) + 0 + 365 - 365 < 7 then 1 else 0) ∧
    highlight_level ⟨"FT8", "20M", (2022 : Int) + 1, 1, 7⟩ "W1AW" 0
      [⟨"W1AW", "FT8", "20M", 2022, 0, 365⟩, sentinel] = some 1 :=
  ⟨year_rollover_delta.1 ⟨"FT8", "20M", 2023, 1, 7⟩
      ⟨"W1AW", "FT8", "20M", 2022, 0, 365⟩ rfl rfl (by decide),
    year_rollover_delta.2 "W1AW" "FT8" "20M" 2022 7 (by decide) (by decide)⟩

end WsjtxHighlight

namespace WsjtxHighlight

/-- If the scan yields level 2 it either started at 2 or some record of
the suffix carries the query callsign with candidate level 2. -/
theorem highlight_scan_eq_two_exists (ctx : Ctx) (call : String) :
    ∀ (l : List DbRec) (level : Nat),
      highlight_scan ctx call l level = some 2 →
      level = 2 ∨ ∃ r ∈ l, call = r.callsign ∧ recLevel ctx r = 2
  | [], level, h => by simp [highlight_scan] at h
  | r :: rest, level, h => by
    by_cases hc : call = r.callsign
    · by_cases h2 : recLevel ctx r = 2
      · exact Or.inr ⟨r, by simp, hc, h2⟩
      · rw [highlight_scan_step ctx call r rest level hc h2] at h
        rcases highlight_scan_eq_two_exists ctx call rest
            (max level (recLevel ctx r)) h with h' | ⟨r', hr', hc', h2'⟩
        · have := recLevel_le_two ctx r
          left
          omega
        · exact Or.inr ⟨r', by simp [hr'], hc', h2'⟩
    · rw [highlight_scan_stop ctx call r rest level hc] at h
      cases h
      exact Or.inl rfl

/-- C10: level 2 is returned only when some matching record is dated
exactly today (same year and same julian day as the context); a record
from the immediately preceding year (the rollover branch) contributes
at most level 1 — even when its computed rollover delta is 0. -/
theorem level_two_only_today :
    (∀ (ctx : Ctx) (call : String) (i : Nat) (db : List DbRec),
      highlight_level ctx call i db = some 2 →
      ∃ r ∈ db, r.callsign = call ∧ r.mode = ctx.wsjtx_mode ∧
        r.band = ctx.wsjtx_band ∧ r.year = ctx.year_now ∧
        r.julian = ctx.julian_now) ∧
    (∀ (ctx : Ctx) (r : DbRec), ctx.year_now - r.year = 1 →
      recLevel ctx r ≤ 1) := by
  constructor
  · intro ctx call i db h
    rcases highlight_scan_eq_two_exists ctx call (db.drop i) 0 h with
      h0 | ⟨r, hr, hc, h2⟩
    · omega
    · obtain ⟨⟨hm, hb⟩, hy, hj⟩ := (recLevel_eq_two_iff ctx r).mp h2
      exact ⟨r, List.drop_subset i db hr, hc.symm, hm, hb, hy.symm, by omega⟩
  · intro ctx r hy
    unfold recLevel
    split_ifs <;> omega

/-- Witness for C10: the database holding one contact logged today
explains its level 2, and a rollover record is capped at level 1. -/
theorem level_two_only_today_witness :
    (∃ r ∈ [⟨"W1AW", "FT8", "20M", 2023, 0, 100⟩, sentinel],
      DbRec.callsign r = "W1AW" ∧ DbRec.mode r = "FT8" ∧
        DbRec.band r = "20M" ∧ DbRec.year r = 2023 ∧
        DbRec.julian r = 100) ∧
      recLevel ⟨"FT8", "20M", 2023, 1, 7⟩ ⟨"W1AW", "FT8", "20M", 2022, 1, 366⟩ ≤ 1 :=
  ⟨level_two_only_today.1 ⟨"FT8", "20M", 2023, 100, 7⟩ "W1AW" 0
      [⟨"W1AW", "FT8", "20M", 2023, 0, 100⟩, sentinel] (by decide),
    level_two_only_today.2 ⟨"FT8", "20M", 2023, 1, 7⟩
      ⟨"W1AW", "FT8", "20M", 2022, 1, 366⟩ (by decide)⟩

end WsjtxHighlight

namespace WsjtxHighlight

/-! ### The calendar utility -/

theorem leap_year_cases (y : Int) : leap_year y = 0 ∨ leap_year y = 1 := by
  unfold leap_year
  split_ifs <;> simp

theorem leap_year_eq_one_iff (y : Int) :
    leap_year y = 1 ↔ ((400 : Int) ∣ y ∨ ((4 : Int) ∣ y ∧ ¬ (100 : Int) ∣ y)) := by
  unfold leap_year
  split_ifs with h1 h2 h3 <;> constructor <;> intro h <;> omega

set_option maxHeartbeats 1000000 in
/-- The 1-based day-of-year of a valid date lies in `1..366`. -/
theorem doy_bounds (l m d : Int) (hl : l = 0 ∨ l = 1)
    (hm1 : 1 ≤ m) (hm2 : m ≤ 12) (hd1 : 1 ≤ d) (hd2 : d ≤ month_len l m) :
    1 ≤ days_before l m + d ∧ days_before l m + d ≤ 366 := by
  rcases hl with rfl | rfl <;>
    (interval_cases m <;> norm_num [month_len, days_before] at hd2 ⊢ <;> omega)

/-- C9: for an 8-digit date stamp denoting a valid calendar date,
`parse_date` returns the integer year, a leap flag that is 1 exactly
for years divisible by 400 or by 4 but not 100 (and 0 otherwise), and
the 1-based day-of-year in `1..366`; for a stamp that is not a valid
calendar date it fails (`none`, modelling the `ValueError` from
`datetime`). -/
theorem parse_date_spec (d : Nat) (_hd : d < 100000000) :
    (valid_date ((d / 10000 : Nat) : Int) ((d / 100 % 100 : Nat) : Int)
        ((d % 100 : Nat) : Int) →
      ∃ y l j : Int, parse_date d = some (y, l, j) ∧
        y = ((d / 10000 : Nat) : Int) ∧
        (l = 1 ↔ ((400 : Int) ∣ y ∨ ((4 : Int) ∣ y ∧ ¬ (100 : Int) ∣ y))) ∧
        (l = 0 ∨ l = 1) ∧ 1 ≤ j ∧ j ≤ 366) ∧
    (¬ valid_date ((d / 10000 : Nat) : Int) ((d / 100 % 100 : Nat) : Int)
        ((d % 100 : Nat) : Int) →
      parse_date d = none) := by
  constructor
  · intro hv
    obtain ⟨hy1, hy2, hm1, hm2, hd1, hd2⟩ := hv
    have hb := doy_bounds (leap_year ((d / 10000 : Nat) : Int))
      ((d / 100 % 100 : Nat) : Int) ((d % 100 : Nat) : Int)
      (leap_year_cases _) hm1 hm2 hd1 hd2
    refine ⟨((d / 10000 : Nat) : Int), leap_year ((d / 10000 : Nat) : Int),
      days_before (leap_year ((d / 10000 : Nat) : Int))
          ((d / 100 % 100 : Nat) : Int) + ((d % 100 : Nat) : Int),
      ?_, rfl, leap_year_eq_one_iff _, leap_year_cases _, hb.1, hb.2⟩
    unfold parse_date
    rw [if_pos ⟨hy1, hy2, hm1, hm2, hd1, hd2⟩]
  · intro hv
    unfold parse_date
    rw [if_neg hv]

/-- Witness for C9: June 15, 2023 parses to day-of-year 166 of a
non-leap year; February 30, 1900 is rejected. -/
theorem parse_date_spec_witness :
    (∃ y l j : Int, parse_date 20230615 = some (y, l, j) ∧
      y = ((20230615 / 10000 : Nat) : Int) ∧
      (l = 1 ↔ ((400 : Int) ∣ y ∨ ((4 : Int) ∣ y ∧ ¬ (100 : Int) ∣ y))) ∧
      (l = 0 ∨ l = 1) ∧ 1 ≤ j ∧ j ≤ 366) ∧
    parse_date 19000230 = none :=
  ⟨(parse_date_spec 20230615 (by decide)).1 (by decide),
    (parse_date_spec 19000230 (by decide)).2 (by decide)⟩

end WsjtxHighlight

namespace WsjtxHighlight

/-! ### Comparing whole lines versus comparing callsigns

`list.sort()` orders the text lines `CALL,MODE,...`; on callsigns whose
characters all sort after the comma this agrees with ordering by the
callsign field. -/

theorem lex_append_lt (u v : List Char) {s t : List Char}
    (h : List.Lex (· < ·) s t) (ht : ∀ c ∈ t, (',' : Char) < c) :
    List.Lex (· < ·) (s ++ ',' :: u) (t ++ ',' :: v) := by
  induction h with
  | nil => exact List.Lex.rel (ht _ (by simp))
  | cons h ih => exact List.Lex.cons (ih (fun c hc => ht c (by simp [hc])))
  | rel hab => exact List.Lex.rel hab

/-- The character list of a record's line: the callsign characters, a
comma, then the remaining fields. -/
theorem line_data (r : DbRec) :
    r.line.data = r.callsign.data ++ ',' ::
      (r.mode.data ++ ',' :: (r.band.data ++ ',' ::
        ((toString r.year).data ++ ',' :: ((toString r.leap).data ++ ',' ::
          ((toString r.julian).data ++ ['\n']))))) := by
  simp [DbRec.line, String.data_append, List.append_assoc]

/-- The line of a record with lexicographically smaller callsign is
smaller, provided the larger callsign has no character at or below the
comma. -/
theorem line_lt_of_callsign_lt (a b : DbRec) (h : a.callsign < b.callsign)
    (hb : goodCall b.callsign) : a.line < b.line := by
  have hc : List.Lex (· < ·) a.callsign.data b.callsign.data :=
    String.lt_iff_toList_lt.mp h
  have hlex : List.Lex (· < ·) a.line.data b.line.data := by
    rw [line_data a, line_data b]
    exact lex_append_lt _ _ hc hb
  exact String.lt_iff_toList_lt.mpr hlex

/-- Conversely, line order implies callsign order when the first
record's callsign has no character at or below the comma. -/
theorem callsign_le_of_line_le (a b : DbRec) (hga : goodCall a.callsign)
    (h : lineLe a b) : a.callsign ≤ b.callsign := by
  by_contra hlt
  have hba := line_lt_of_callsign_lt b a (not_le.mp hlt) hga
  exact absurd h (not_le.mpr hba)

/-- In a `lineLe`-sorted list every element is at most the last one. -/
theorem pairwise_lineLe_getLast :
    ∀ (l : List DbRec) (h : l ≠ []), l.Pairwise lineLe →
      ∀ y ∈ l, lineLe y (l.getLast h)
  | [], h, _, _, _ => absurd rfl h
  | [a], _, _, y, hy => by
    simp at hy
    subst hy
    exact le_rfl
  | a :: b :: l, h, hp, y, hy => by
    have hlast : (a :: b :: l).getLast h = (b :: l).getLast (by simp) :=
      List.getLast_cons (by simp)
    rcases List.mem_cons.mp hy with rfl | hy'
    · have hz := List.getLast_mem (l := b :: l) (by simp)
      have := (List.pairwise_cons.mp hp).1 _ hz
      rw [hlast]
      exact this
    · have := pairwise_lineLe_getLast (b :: l) (by simp)
        (List.pairwise_cons.mp hp).2 y hy'
      rw [hlast]
      exact this

end WsjtxHighlight

namespace WsjtxHighlight

/-- C5 counterexample: the QSO-logged branch does not uppercase the
callsign it receives, so a logged callsign such as "w1aw" (lowercase
sorts after 'Z') ends up *after* the sentinel when the whole list is
re-sorted: the updated sequence no longer ends with the sentinel. -/
theorem record_qso_lowercase_call_breaks_sentinel :
    sortedByCall [sentinel] ∧
      [sentinel].getLast? = some sentinel ∧
      (record_qso [sentinel] ⟨"w1aw", "FT8", "20M", 2023, 0, 166⟩).getLast? =
        some ⟨"w1aw", "FT8", "20M", 2023, 0, 166⟩ ∧
      (⟨"w1aw", "FT8", "20M", 2023, 0, 166⟩ : DbRec) ≠ sentinel :=
  ⟨by decide, by decide, by decide, by decide⟩

/-- C5 (amended: all real callsigns and the logged callsign consist of
characters above ',' — true of uppercase letters and digits — and sort
strictly before the sentinel callsign `ZZZZZZ`): the QSO-logged update
(append + full re-sort of the lines) yields a sequence that is again
sorted ascending by callsign and still ends with the sentinel. -/
theorem record_qso_preserves_invariants
    (real : List DbRec) (entry : DbRec)
    (_hs : sortedByCall (real ++ [sentinel]))
    (hreal : ∀ r ∈ real, goodCall r.callsign ∧ r.callsign < "ZZZZZZ")
    (hentry : goodCall entry.callsign ∧ entry.callsign < "ZZZZZZ") :
    sortedByCall (record_qso (real ++ [sentinel]) entry) ∧
      (record_qso (real ++ [sentinel]) entry).getLast? = some sentinel := by
  have hsorted : (record_qso (real ++ [sentinel]) entry).Pairwise lineLe :=
    List.sorted_insertionSort lineLe ((real ++ [sentinel]) ++ [entry])
  have hperm : List.Perm (record_qso (real ++ [sentinel]) entry)
      ((real ++ [sentinel]) ++ [entry]) :=
    List.perm_insertionSort lineLe ((real ++ [sentinel]) ++ [entry])
  have hmem : ∀ z ∈ record_qso (real ++ [sentinel]) entry,
      z = sentinel ∨ (goodCall z.callsign ∧ z.callsign < "ZZZZZZ") := by
    intro z hz
    have hz' := hperm.mem_iff.mp hz
    simp only [List.mem_append, List.mem_singleton] at hz'
    rcases hz' with (hzr | rfl) | rfl
    · exact Or.inr (hreal z hzr)
    · exact Or.inl rfl
    · exact Or.inr hentry
  have hgood : ∀ z ∈ record_qso (real ++ [sentinel]) entry,
      goodCall z.callsign := by
    intro z hz
    rcases hmem z hz with rfl | ⟨hg, _⟩
    · decide
    · exact hg
  constructor
  · exact hsorted.imp_of_mem
      (fun ha hb hab => callsign_le_of_line_le _ _ (hgood _ ha) hab)
  · have hne : record_qso (real ++ [sentinel]) entry ≠ [] := by
      intro hnil
      have hlen := hperm.length_eq
      rw [hnil] at hlen
      simp at hlen
    rw [List.getLast?_eq_getLast_of_ne_nil hne]
    have hsmem : sentinel ∈ record_qso (real ++ [sentinel]) entry :=
      hperm.mem_iff.mpr (by simp)
    have hlastle := pairwise_lineLe_getLast _ hne hsorted sentinel hsmem
    have hz := List.getLast_mem hne
    rcases hmem _ hz with hzs | ⟨_, hlt⟩
    · rw [hzs]
    · exfalso
      have hzlt := line_lt_of_callsign_lt _ sentinel hlt (by decide)
      exact absurd hlastle (not_le.mpr hzlt)

/-- Witness for the amended C5. -/
theorem record_qso_preserves_invariants_witness :
    sortedByCall (record_qso ([⟨"K1JT", "FT8", "20M", 2023, 0, 50⟩] ++ [sentinel])
        ⟨"AA1A", "FT8", "20M", 2023, 0, 166⟩) ∧
      (record_qso ([⟨"K1JT", "FT8", "20M", 2023, 0, 50⟩] ++ [sentinel])
        ⟨"AA1A", "FT8", "20M", 2023, 0, 166⟩).getLast? = some sentinel :=
  record_qso_preserves_invariants [⟨"K1JT", "FT8", "20M", 2023, 0, 50⟩]
    ⟨"AA1A", "FT8", "20M", 2023, 0, 166⟩ (by decide) (by decide) (by decide)

end WsjtxHighlight
